import Mathlib

/-!
Verification of the multi-step tool-calling orchestrator of this repository.

The development shallowly embeds the Rust sources:
  * `src/openai/call/types.rs`      — decisions, resolutions, answers, log events
  * `src/openai/call/resolver.rs`   — `resolve_and_execute_tool_call`
  * `src/openai/call/proposer.rs`   — message assembly and response decoding
  * `src/openai/call/multi_step.rs` — the orchestration loop
  * `src/openai/history.rs`         — `ConversationHistory`
  * `src/openai/call/request.rs`    — token-limit strategy and request building
  * `src/config.rs`                 — `OpenAIConfig`, `DEFAULT_SYSTEM_PROMPT`

External library calls (the JSON parser `serde_json::from_str`, the network
round trip of the proposer, and tool handlers) are modelled as explicit
function parameters; everything the repository itself defines is translated
directly.
-/

namespace RustTest

/-- JSON values, modelling `serde_json::Value` (numbers restricted to
integers; none of the verified code inspects numeric payloads). -/
inductive Json where
  | null
  | bool (b : Bool)
  | num (n : Int)
  | str (s : String)
  | arr (elts : List Json)
  | obj (fields : List (String × Json))

mutual

/-- Serialization of a JSON value, modelling `serde_json::Value`'s
`Display`/`to_string` (compact form; string escaping elided — no theorem
inspects the rendered text). Used where `multi_step.rs` calls
`result.to_string()`. -/
def Json.render : Json → String
  | .null => "null"
  | .bool true => "true"
  | .bool false => "false"
  | .num n => toString n
  | .str s => "\"" ++ s ++ "\""
  | .arr elts => "[" ++ Json.renderList elts ++ "]"
  | .obj fields => "\x7b" ++ Json.renderFields fields ++ "\x7d"

/-- Comma-separated rendering of array elements. -/
def Json.renderList : List Json → String
  | [] => ""
  | [x] => Json.render x
  | x :: y :: xs => Json.render x ++ "," ++ Json.renderList (y :: xs)

/-- Comma-separated rendering of object fields. -/
def Json.renderFields : List (String × Json) → String
  | [] => ""
  | [f] => "\"" ++ f.1 ++ "\":" ++ Json.render f.2
  | f :: g :: fs => "\"" ++ f.1 ++ "\":" ++ Json.render f.2 ++ "," ++ Json.renderFields (g :: fs)

end

/-- A tool registry entry, from `ToolDefinition` in `src/openai/tool.rs` /
`src/openai/tools`: name, description, strict flag, execution handler.
The handler (`execute`) is the stored closure: JSON in, JSON out or a
string error (`ToolHandler`). The advisory `parameters` schema is metadata
only and is not consulted by the resolver, so it is omitted here. -/
structure ToolDefinition where
  name : String
  description : String
  strict : Bool
  handler : Json → Except String Json

/-- `ToolCallDecision` from `src/openai/call/types.rs`. -/
inductive ToolCallDecision where
  | Text (t : String)
  | ToolCall (name : String) (arguments : String)
deriving DecidableEq

/-- `ToolResolution` from `src/openai/call/types.rs`: the five disjoint
outcome kinds of resolving a decision. -/
inductive ToolResolution where
  | ModelText (t : String)
  | Executed (name : String) (result : Json)
  | ToolNotFound (requested : String)
  | ArgumentsParseError (name : String) (raw : String) (error : String)
  | ExecutionError (name : String) (error : String)

/-- `ToolResolution::is_executed` from `src/openai/call/types.rs`. -/
def ToolResolution.is_executed : ToolResolution → Bool
  | .Executed _ _ => true
  | _ => false

/-- `resolve_and_execute_tool_call` from
`src/crates/app_core/src/openai/call/resolver.rs` (identical logic in
`src/src/openai/call/resolver.rs`). The JSON parser `serde_json::from_str`
is an external library function and is passed in as the `parse` parameter;
`e.to_string()` on the parse error is the string the parameter returns. -/
def resolve_and_execute_tool_call (parse : String → Except String Json)
    (decision : ToolCallDecision) (tools : List ToolDefinition) : ToolResolution :=
  match decision with
  | .Text t => .ModelText t
  | .ToolCall name arguments =>
    match tools.find? (fun d => d.name == name) with
    | none => .ToolNotFound name
    | some tool =>
      match parse arguments with
      | .error e => .ArgumentsParseError tool.name arguments e
      | .ok parsed =>
        match tool.handler parsed with
        | .ok v => .Executed tool.name v
        | .error e => .ExecutionError tool.name e

/-- One function call inside a chat-completion response tool call
(`first.function` in the proposer sources). -/
structure ResponseFunctionCall where
  name : String
  arguments : String

/-- One tool call of a response message. -/
structure ResponseToolCall where
  function : ResponseFunctionCall

/-- The message of a response choice: optional tool calls, optional text
content (mirroring the `async_openai` response types the proposer reads). -/
structure ResponseMessage where
  tool_calls : Option (List ResponseToolCall)
  content : Option String

/-- One candidate choice of a chat-completion response. -/
structure ResponseChoice where
  message : ResponseMessage

/-- A chat-completion response: the list of candidate choices. -/
structure ChatResponse where
  choices : List ResponseChoice

/-- The response-decoding tail of `propose_tool_call`
(`src/openai/call/proposer.rs`, identical in
`src/crates/app_core/src/openai/call/proposer.rs`): no choice yields the
sentinel text, else the first choice's first tool call if any, else the
choice's content with a sentinel for absent content. -/
def propose_tool_call_decode (resp : ChatResponse) : ToolCallDecision :=
  match resp.choices.head? with
  | none => .Text "(応答なし)"
  | some choice =>
    match choice.message.tool_calls with
    | some tool_calls =>
      match tool_calls.head? with
      | some first => .ToolCall first.function.name first.function.arguments
      | none => .Text (choice.message.content.getD "(空の応答)")
    | none => .Text (choice.message.content.getD "(空の応答)")

/-- A chat-completion request message, modelling the `async_openai`
`ChatCompletionRequestMessage` variants the repository constructs. -/
inductive ChatCompletionRequestMessage where
  | System (content : String)
  | User (content : String)
  | Assistant (content : String)
  | Function (name : String) (content : String)
deriving DecidableEq

/-- `DEFAULT_SYSTEM_PROMPT` from `src/config.rs`. -/
def DEFAULT_SYSTEM_PROMPT : String := "あなたは簡潔な日本語で答えるアシスタントです。"

/-- `ConversationHistory` from `src/openai/history.rs`: an optional system
message kept separate from the ordered message sequence. -/
structure ConversationHistory where
  system_message : Option ChatCompletionRequestMessage
  messages : List ChatCompletionRequestMessage
deriving DecidableEq

/-- `ConversationHistory::new`. -/
def ConversationHistory.new : ConversationHistory :=
  { system_message := none, messages := [] }

/-- `ConversationHistory::set_system` (replaces any existing system message). -/
def ConversationHistory.set_system (h : ConversationHistory) (content : String) :
    ConversationHistory :=
  { h with system_message := some (.System content) }

/-- `ConversationHistory::clear_system`. -/
def ConversationHistory.clear_system (h : ConversationHistory) : ConversationHistory :=
  { h with system_message := none }

/-- `ConversationHistory::with_default_system`. -/
def ConversationHistory.with_default_system : ConversationHistory :=
  ConversationHistory.new.set_system DEFAULT_SYSTEM_PROMPT

/-- `ConversationHistory::len` (excludes the system message). -/
def ConversationHistory.len (h : ConversationHistory) : Nat := h.messages.length

/-- `ConversationHistory::is_empty` (excludes the system message). -/
def ConversationHistory.is_empty (h : ConversationHistory) : Bool := h.messages.isEmpty

/-- `ConversationHistory::as_slice` (excludes the system message). -/
def ConversationHistory.as_slice (h : ConversationHistory) :
    List ChatCompletionRequestMessage := h.messages

/-- `ConversationHistory::as_slice_with_system` (system message first when
present, then the messages in push order). -/
def ConversationHistory.as_slice_with_system (h : ConversationHistory) :
    List ChatCompletionRequestMessage :=
  match h.system_message with
  | some m => m :: h.messages
  | none => h.messages

/-- `ConversationHistory::push`. -/
def ConversationHistory.push (h : ConversationHistory)
    (m : ChatCompletionRequestMessage) : ConversationHistory :=
  { h with messages := h.messages ++ [m] }

/-- `ConversationHistory::add_user`. -/
def ConversationHistory.add_user (h : ConversationHistory) (content : String) :
    ConversationHistory := h.push (.User content)

/-- `ConversationHistory::add_assistant`. -/
def ConversationHistory.add_assistant (h : ConversationHistory) (content : String) :
    ConversationHistory := h.push (.Assistant content)

/-- `ConversationHistory::add_function`. -/
def ConversationHistory.add_function (h : ConversationHistory)
    (name content : String) : ConversationHistory := h.push (.Function name content)

/-- The message assembly of `propose_tool_call` in
`src/openai/call/proposer.rs`: a hardcoded system message, then a user
message holding the per-call `prompt` argument, then the passed history. -/
def propose_tool_call_messages (history : List ChatCompletionRequestMessage)
    (prompt : String) : List ChatCompletionRequestMessage :=
  .System "あなたは簡潔な日本語で答えるアシスタントです。" :: .User prompt :: history

/-- `OpenAIConfig` from `src/config.rs`. -/
structure OpenAIConfig where
  model : String
  max_tokens : Nat
  max_completion_tokens : Nat
  poll_interval_ms : Nat
  system_prompt : Option String

/-- `TokenLimitStrategy` from `src/openai/call/request.rs`. -/
inductive TokenLimitStrategy where
  | MaxTokens
  | MaxCompletionTokens
deriving DecidableEq

/-- Whether `needle` occurs contiguously at the start of `hay`
(helper for `str::contains`). -/
def charsStartWith : List Char → List Char → Bool
  | _, [] => true
  | [], _ :: _ => false
  | h :: hs, n :: ns => (h == n) && charsStartWith hs ns

/-- Whether `needle` occurs contiguously anywhere in `hay`
(helper for `str::contains`). -/
def charsContain : List Char → List Char → Bool
  | [], needle => needle.isEmpty
  | h :: t, needle => charsStartWith (h :: t) needle || charsContain t needle

/-- Rust `str::contains(substring)`, used by
`determine_token_limit_strategy` as `model.contains("4o")`. -/
def str_contains (hay pat : String) : Bool := charsContain hay.data pat.data

/-- `determine_token_limit_strategy` from `src/openai/call/request.rs`:
`MaxTokens` for models whose name contains `"4o"`, `MaxCompletionTokens`
otherwise. -/
def determine_token_limit_strategy (model : String) : TokenLimitStrategy :=
  if str_contains model "4o" then .MaxTokens else .MaxCompletionTokens

/-- A tool descriptor as sent to the endpoint
(`async_openai::types::ChatCompletionTool`, built by
`ToolDefinition::as_chat_tool`). -/
structure ChatCompletionTool where
  name : String
  description : String

/-- The chat-completion request fields set by
`build_request_with_strategy` in `src/openai/call/request.rs`. Exactly
the fields the builder sets are modelled; the two token-limit fields are
optional because the builder sets only one of them. -/
structure CreateChatCompletionRequest where
  model : String
  messages : List ChatCompletionRequestMessage
  tools : List ChatCompletionTool
  tool_choice : String
  max_tokens : Option Nat
  max_completion_tokens : Option Nat

/-- `build_request_with_strategy` from `src/openai/call/request.rs`:
common fields, then either `max_tokens` (from `config.max_tokens`) or
`max_completion_tokens` (from `config.max_completion_tokens`) according
to the strategy. -/
def build_request_with_strategy (history : ConversationHistory)
    (tools : List ChatCompletionTool) (tool_choice : String) (model : String)
    (strategy : TokenLimitStrategy) (config : OpenAIConfig) :
    CreateChatCompletionRequest :=
  match strategy with
  | .MaxTokens =>
    { model := model
      messages := history.as_slice_with_system
      tools := tools
      tool_choice := tool_choice
      max_tokens := some config.max_tokens
      max_completion_tokens := none }
  | .MaxCompletionTokens =>
    { model := model
      messages := history.as_slice_with_system
      tools := tools
      tool_choice := tool_choice
      max_tokens := none
      max_completion_tokens := some config.max_completion_tokens }

/-- `request_chat_completion` from `src/openai/call/request.rs`: determine
the strategy from `config.model`, then build the request with it. -/
def request_chat_completion (history : ConversationHistory)
    (config : OpenAIConfig) (tools : List ChatCompletionTool)
    (tool_choice : String) : CreateChatCompletionRequest :=
  build_request_with_strategy history tools tool_choice config.model
    (determine_token_limit_strategy config.model) config

/-- `MultiStepAnswer` from `src/openai/call/types.rs`. -/
structure MultiStepAnswer where
  final_answer : String
  steps : List ToolResolution
  iterations : Nat
  truncated : Bool

/-- `MultiStepLogEvent` from `src/openai/call/types.rs`. -/
inductive MultiStepLogEvent where
  | IterationStart (iteration : Nat)
  | Proposed (iteration : Nat) (decision : ToolCallDecision)
  | Resolved (iteration : Nat) (resolution : ToolResolution)
  | HistoryFunctionAppended (iteration : Nat) (name : String) (result : Json)
  | FinalText (iteration : Nat) (text : String)
  | EarlyFailure (iteration : Nat) (resolution : ToolResolution)
  | Truncated (max_loops : Nat)

/-- The proposer as the orchestrator sees it: one network round trip per
iteration, receiving the current transcript slice and the per-call prompt,
returning a decision or a fatal endpoint error. The iteration index models
the fact that distinct network calls may answer differently. -/
abbrev Proposer :=
  Nat → List ChatCompletionRequestMessage → String → Except String ToolCallDecision

/-- The per-resolution note `executed_json_for_next` computed inside the
orchestration loop (`src/openai/call/multi_step.rs`). -/
def executed_json_for_next : ToolResolution → String
  | .Executed name result => "ツール " ++ name ++ " の結果 JSON: " ++ result.render
  | .ModelText t => "モデルテキスト: " ++ t
  | .ToolNotFound requested => "要求されたツール " ++ requested ++ " は存在しません。"
  | .ArgumentsParseError name raw error =>
      "ツール " ++ name ++ " の引数パース失敗: " ++ error ++ ". RAW: " ++ raw
  | .ExecutionError name error => "ツール " ++ name ++ " 実行エラー: " ++ error

/-- The early-failure final answer of the orchestration loop: the fixed
header, the original question, and the failure note. -/
def early_failure_answer (original_user_prompt : String) (r : ToolResolution) :
    String :=
  "途中でツール実行に失敗したためここまでの情報で回答します。\n元の質問: "
    ++ original_user_prompt ++ "\n" ++ executed_json_for_next r

/-- The truncation final answer of the orchestration loop. -/
def truncated_answer (max_loops : Nat) : String :=
  "最大ループ回数(" ++ toString max_loops
    ++ ")に達したため打ち切りました。これまでの function 結果(JSON)を参考に最終回答をまとめてください。"

/-- The `for iteration in 1..=max_loops` loop of
`multi_step_tool_answer_with_logger_internal` (`src/openai/call/multi_step.rs`),
translated with an explicit remaining-iterations counter (`remaining` =
`max_loops + 1 - iteration` along real runs; exhaustion of the counter is
the loop running past `max_loops`). The observer is a state-passing sink
`cb` over an arbitrary state type `σ`, modelling the `FnMut` logger closure
and its captured state; the `None` logger is the trivial sink on `Unit`.
Per iteration: emit `IterationStart`; call the proposer with the transcript
slice and an empty prompt (`""`), propagating endpoint errors; emit
`Proposed`; on a `Text` decision emit `FinalText` and return it untruncated;
on a `ToolCall` resolve it, emit `Resolved`, push the resolution onto
`steps`, and either (not executed) emit `EarlyFailure` and return the
degraded answer untruncated, or (executed) append the serialized result to
the history as a function turn, emit `HistoryFunctionAppended`, and
continue. On exhaustion emit `Truncated` and return the truncation answer
with `truncated := true` and `iterations := max_loops`. -/
def multi_step_loop (σ : Type) (cb : MultiStepLogEvent → σ → σ)
    (propose : Proposer) (parse : String → Except String Json)
    (original_user_prompt : String) (tools : List ToolDefinition)
    (max_loops : Nat) :
    Nat → Nat → List ToolResolution → ConversationHistory → σ →
      Except String (MultiStepAnswer × σ)
  | 0, _, steps, _, s =>
    let s := cb (.Truncated max_loops) s
    .ok ({ final_answer := truncated_answer max_loops, steps := steps,
           iterations := max_loops, truncated := true }, s)
  | remaining + 1, iteration, steps, history, s =>
    let s := cb (.IterationStart iteration) s
    match propose iteration history.as_slice "" with
    | .error e => .error e
    | .ok (.Text text) =>
      let s := cb (.Proposed iteration (.Text text)) s
      let s := cb (.FinalText iteration text) s
      .ok ({ final_answer := text, steps := steps, iterations := iteration,
             truncated := false }, s)
    | .ok (.ToolCall name arguments) =>
      let s := cb (.Proposed iteration (.ToolCall name arguments)) s
      match resolve_and_execute_tool_call parse (.ToolCall name arguments) tools with
      | .Executed ename result =>
        let s := cb (.Resolved iteration (.Executed ename result)) s
        let s := cb (.HistoryFunctionAppended iteration ename result) s
        multi_step_loop σ cb propose parse original_user_prompt tools max_loops
          remaining (iteration + 1) (steps ++ [.Executed ename result])
          (history.add_function ename result.render) s
      | r =>
        let s := cb (.Resolved iteration r) s
        let s := cb (.EarlyFailure iteration r) s
        .ok ({ final_answer := early_failure_answer original_user_prompt r,
               steps := steps ++ [r], iterations := iteration,
               truncated := false }, s)

/-- `multi_step_tool_answer_with_logger_internal` from
`src/openai/call/multi_step.rs`: default the loop budget to 5, seed the
history with the user prompt, run the loop from iteration 1 with empty
`steps`, threading the observer state. -/
def multi_step_tool_answer_with_logger_internal (σ : Type)
    (cb : MultiStepLogEvent → σ → σ) (propose : Proposer)
    (parse : String → Except String Json) (original_user_prompt : String)
    (tools : List ToolDefinition) (max_loops : Option Nat) (s : σ) :
    Except String (MultiStepAnswer × σ) :=
  let maxL := max_loops.getD 5
  multi_step_loop σ cb propose parse original_user_prompt tools maxL
    maxL 1 [] (ConversationHistory.new.add_user original_user_prompt) s

/-- `multi_step_tool_answer` from `src/openai/call/multi_step.rs`: the
internal runner with no logger (the trivial sink). -/
def multi_step_tool_answer (propose : Proposer)
    (parse : String → Except String Json) (original_user_prompt : String)
    (tools : List ToolDefinition) (max_loops : Option Nat) :
    Except String MultiStepAnswer :=
  (multi_step_tool_answer_with_logger_internal Unit (fun _ s => s) propose
    parse original_user_prompt tools max_loops ()).map Prod.fst

/-- The collecting sink: record every emitted event in emission order. -/
def collect_events : MultiStepLogEvent → List MultiStepLogEvent → List MultiStepLogEvent :=
  fun e evs => evs ++ [e]

/-- The orchestration run observed through the collecting sink: the answer
together with the full event sequence in emission order. -/
def multi_step_events (propose : Proposer)
    (parse : String → Except String Json) (original_user_prompt : String)
    (tools : List ToolDefinition) (max_loops : Option Nat) :
    Except String (MultiStepAnswer × List MultiStepLogEvent) :=
  multi_step_tool_answer_with_logger_internal (List MultiStepLogEvent)
    collect_events propose parse original_user_prompt tools max_loops []

/-! ## Helpers for stating and witnessing the claims -/

/-- `needle` occurs contiguously inside `hay`. -/
def substring_of (needle hay : String) : Prop :=
  ∃ pre post, hay = pre ++ needle ++ post

theorem substring_of_self_append (n b : String) : substring_of n (n ++ b) :=
  ⟨"", b, by rw [String.empty_append]⟩

theorem substring_of_appendl {n b : String} (a : String) (h : substring_of n b) :
    substring_of n (a ++ b) := by
  obtain ⟨pre, post, rfl⟩ := h
  exact ⟨a ++ pre, post, by simp only [String.append_assoc]⟩

theorem substring_of_appendr {n a : String} (h : substring_of n a) (b : String) :
    substring_of n (a ++ b) := by
  obtain ⟨pre, post, rfl⟩ := h
  exact ⟨pre, post ++ b, by simp only [String.append_assoc]⟩

/-- Sample JSON parse function standing in for `serde_json::from_str` in
concrete witnesses. -/
def wParse : String → Except String Json := fun s =>
  if s == "null" then .ok .null
  else if s == "1" then .ok (.num 1)
  else .error "expected value"

/-- Sample registry entry (the spec's `get_constants` scenario tool): the
handler succeeds on `null` arguments and fails otherwise. -/
def wTool : ToolDefinition :=
  { name := "get_constants", description := "returns constants",
    strict := false,
    handler := fun j => match j with
      | .null => .ok (.obj [("X", .num 3), ("Y", .num 5)])
      | _ => .error "bad args" }

/-- Sample proposer that always requests a successful tool call. -/
def wProposeTC : Proposer := fun _ _ _ => .ok (.ToolCall "get_constants" "null")

/-- Sample proposer that immediately answers with text. -/
def wProposeText : Proposer := fun _ _ _ => .ok (.Text "done")

/-- Sample proposer requesting a tool absent from the registry. -/
def wProposeMissing : Proposer := fun _ _ _ => .ok (.ToolCall "nope" "null")

/-- Sample proposer ignoring its prompt argument. -/
def wP1 : Proposer := fun _ _ _ => .ok (.Text "a")

/-- Sample proposer that agrees with `wP1` exactly on the empty prompt. -/
def wP2 : Proposer := fun _ _ prompt =>
  if prompt == "" then .ok (.Text "a") else .error "differs"

/-! ## Claims -/

/-- Claim C3: `resolve_and_execute_tool_call` is total and classifies every
decision into exactly one of the five resolution kinds: `Text(t)` passes
through as `ModelText(t)` for any registry; a `ToolCall` whose name misses
the registry is `ToolNotFound` with the requested name regardless of the
arguments; a hit whose argument string fails to parse is
`ArgumentsParseError` carrying the argument string unmodified and the parse
error; after a successful parse, a failing handler gives `ExecutionError`
with the handler's error text and a succeeding handler gives `Executed`
with the returned value. -/
theorem resolver_total_classification
    (parse : String → Except String Json) (tools : List ToolDefinition) :
    (∀ t, resolve_and_execute_tool_call parse (.Text t) tools = .ModelText t)
    ∧ (∀ name arguments,
        tools.find? (fun d => d.name == name) = none →
        resolve_and_execute_tool_call parse (.ToolCall name arguments) tools
          = .ToolNotFound name)
    ∧ (∀ name arguments tool e,
        tools.find? (fun d => d.name == name) = some tool →
        parse arguments = .error e →
        resolve_and_execute_tool_call parse (.ToolCall name arguments) tools
          = .ArgumentsParseError tool.name arguments e)
    ∧ (∀ name arguments tool v e,
        tools.find? (fun d => d.name == name) = some tool →
        parse arguments = .ok v → tool.handler v = .error e →
        resolve_and_execute_tool_call parse (.ToolCall name arguments) tools
          = .ExecutionError tool.name e)
    ∧ (∀ name arguments tool v r,
        tools.find? (fun d => d.name == name) = some tool →
        parse arguments = .ok v → tool.handler v = .ok r →
        resolve_and_execute_tool_call parse (.ToolCall name arguments) tools
          = .Executed tool.name r) := by
  refine ⟨fun t => rfl, ?_, ?_, ?_, ?_⟩ <;> intros <;>
    simp [resolve_and_execute_tool_call, *]

/-- Witness for C3: the five classifications at concrete inputs, including
the spec's `get_constants` scenarios. -/
theorem resolver_total_classification_witness :
    resolve_and_execute_tool_call wParse (.Text "hi") [wTool] = .ModelText "hi"
    ∧ resolve_and_execute_tool_call wParse (.ToolCall "nope" "null") [wTool]
        = .ToolNotFound "nope"
    ∧ resolve_and_execute_tool_call wParse (.ToolCall "get_constants" "not json") [wTool]
        = .ArgumentsParseError "get_constants" "not json" "expected value"
    ∧ resolve_and_execute_tool_call wParse (.ToolCall "get_constants" "1") [wTool]
        = .ExecutionError "get_constants" "bad args"
    ∧ resolve_and_execute_tool_call wParse (.ToolCall "get_constants" "null") [wTool]
        = .Executed "get_constants" (.obj [("X", .num 3), ("Y", .num 5)]) := by
  obtain ⟨h1, h2, h3, h4, h5⟩ := resolver_total_classification wParse [wTool]
  exact ⟨h1 "hi", h2 "nope" "null" rfl,
    h3 "get_constants" "not json" wTool "expected value" rfl rfl,
    h4 "get_constants" "1" wTool (.num 1) "bad args" rfl rfl rfl,
    h5 "get_constants" "null" wTool .null (.obj [("X", .num 3), ("Y", .num 5)]) rfl rfl rfl⟩

/-- Claim C4: the proposer's decoding of an endpoint response always yields
exactly one decision: no candidate gives the sentinel text; only the first
candidate matters; a first candidate carrying at least one tool call gives
`ToolCall` of the first tool call only (further tool calls are ignored);
otherwise the decision is the candidate's content as text, with a sentinel
substituted for absent content (an empty tool-call list also falls through
to the text path). -/
theorem propose_decode_first_only :
    (propose_tool_call_decode ⟨[]⟩ = .Text "(応答なし)")
    ∧ (∀ c rest, propose_tool_call_decode ⟨c :: rest⟩
        = propose_tool_call_decode ⟨[c]⟩)
    ∧ (∀ first more content rest,
        propose_tool_call_decode ⟨⟨⟨some (first :: more), content⟩⟩ :: rest⟩
          = .ToolCall first.function.name first.function.arguments)
    ∧ (∀ content rest,
        propose_tool_call_decode ⟨⟨⟨none, content⟩⟩ :: rest⟩
          = .Text (content.getD "(空の応答)"))
    ∧ (∀ content rest,
        propose_tool_call_decode ⟨⟨⟨some [], content⟩⟩ :: rest⟩
          = .Text (content.getD "(空の応答)")) := by
  refine ⟨rfl, ?_, ?_, ?_, ?_⟩ <;> intros <;> rfl

/-- Claim C8: every `ConversationHistory` operation preserves the appended
turns in order: the append operations push exactly one turn at the end,
`set_system` and `clear_system` leave the turn sequence untouched,
`len`/`as_slice` exclude the system directive (identical whether or not a
directive is set), and `as_slice_with_system` renders the directive first,
when present, followed by all turns in append order. -/
theorem conversation_history_append_only (h : ConversationHistory)
    (c name : String) (m : ChatCompletionRequestMessage) :
    ((h.add_user c).as_slice = h.as_slice ++ [.User c])
    ∧ ((h.add_assistant c).as_slice = h.as_slice ++ [.Assistant c])
    ∧ ((h.add_function name c).as_slice = h.as_slice ++ [.Function name c])
    ∧ ((h.push m).as_slice = h.as_slice ++ [m])
    ∧ ((h.set_system c).as_slice = h.as_slice)
    ∧ (h.clear_system.as_slice = h.as_slice)
    ∧ ((h.set_system c).len = h.len)
    ∧ (h.clear_system.len = h.len)
    ∧ (h.len = h.as_slice.length)
    ∧ ((h.set_system c).as_slice_with_system
        = ChatCompletionRequestMessage.System c :: h.as_slice)
    ∧ (h.clear_system.as_slice_with_system = h.as_slice) :=
  ⟨rfl, rfl, rfl, rfl, rfl, rfl, rfl, rfl, rfl, rfl, rfl⟩

/-- Sample configuration naming a `"4o"`-family model. -/
def wConfig4o : OpenAIConfig :=
  { model := "gpt-4o", max_tokens := 10000, max_completion_tokens := 16000,
    poll_interval_ms := 100, system_prompt := none }

/-- Claim C9: the token-limit field selection is a pure function of the
model identifier: when the model name contains `"4o"` the built request
sets `max_tokens` from `config.max_tokens` (and leaves
`max_completion_tokens` unset), otherwise it sets `max_completion_tokens`
from `config.max_completion_tokens` (and leaves `max_tokens` unset);
exactly one of the two fields is set in every built request, and the
choice depends only on the model string. -/
theorem token_limit_field_selection (history : ConversationHistory)
    (tools : List ChatCompletionTool) (tool_choice : String)
    (config : OpenAIConfig) :
    (((request_chat_completion history config tools tool_choice).max_tokens,
      (request_chat_completion history config tools tool_choice).max_completion_tokens)
      = if str_contains config.model "4o"
          then (some config.max_tokens, none)
          else (none, some config.max_completion_tokens))
    ∧ ((request_chat_completion history config tools tool_choice).max_tokens.isSome
        = !(request_chat_completion history config tools tool_choice).max_completion_tokens.isSome)
    ∧ (∀ history2 tools2 tool_choice2 config2, config2.model = config.model →
        determine_token_limit_strategy config2.model
          = determine_token_limit_strategy config.model
        ∧ (request_chat_completion history2 config2 tools2 tool_choice2).max_tokens.isSome
            = (request_chat_completion history config tools tool_choice).max_tokens.isSome) := by
  refine ⟨?_, ?_, ?_⟩
  · by_cases hc : str_contains config.model "4o" <;>
      simp [request_chat_completion, determine_token_limit_strategy,
            build_request_with_strategy, hc]
  · by_cases hc : str_contains config.model "4o" <;>
      simp [request_chat_completion, determine_token_limit_strategy,
            build_request_with_strategy, hc]
  · intro history2 tools2 tool_choice2 config2 hm
    refine ⟨by rw [hm], ?_⟩
    by_cases hc : str_contains config.model "4o" <;>
      simp [request_chat_completion, determine_token_limit_strategy,
            build_request_with_strategy, hm, hc]

/-- Witness for C9: the selection at a concrete `"4o"` configuration, with
the model-only-dependence part discharged at a concrete second input. -/
theorem token_limit_field_selection_witness :
    (((request_chat_completion ConversationHistory.new wConfig4o [] "auto").max_tokens,
      (request_chat_completion ConversationHistory.new wConfig4o [] "auto").max_completion_tokens)
      = if str_contains wConfig4o.model "4o"
          then (some wConfig4o.max_tokens, none)
          else (none, some wConfig4o.max_completion_tokens))
    ∧ ((request_chat_completion ConversationHistory.with_default_system wConfig4o [] "none").max_tokens.isSome
        = (request_chat_completion ConversationHistory.new wConfig4o [] "auto").max_tokens.isSome) := by
  have h := token_limit_field_selection ConversationHistory.new [] "auto" wConfig4o
  exact ⟨h.1,
    (h.2.2 ConversationHistory.with_default_system [] "none" wConfig4o rfl).2⟩

/-! ## Orchestrator loop lemmas -/

/-- Only the empty-prompt behavior of the proposer is ever consulted by the
loop: proposers agreeing on the empty prompt produce identical runs. -/
theorem multi_step_loop_prompt_empty (σ : Type) (cb : MultiStepLogEvent → σ → σ)
    (p1 p2 : Proposer) (parse : String → Except String Json) (prompt : String)
    (tools : List ToolDefinition) (maxN : Nat)
    (hp : ∀ i hist, p1 i hist "" = p2 i hist "") :
    ∀ remaining iteration steps history s,
      multi_step_loop σ cb p1 parse prompt tools maxN remaining iteration steps history s
        = multi_step_loop σ cb p2 parse prompt tools maxN remaining iteration steps history s := by
  intro remaining
  induction remaining with
  | zero => intro iteration steps history s; rfl
  | succ n ih =>
    intro iteration steps history s
    simp only [multi_step_loop, hp iteration history.as_slice]
    cases hd : p2 iteration history.as_slice "" with
    | error e => rfl
    | ok dec =>
      cases dec with
      | Text t => rfl
      | ToolCall name args =>
        dsimp only
        cases hr : resolve_and_execute_tool_call parse (.ToolCall name args) tools with
        | Executed en res => dsimp only; exact ih (iteration + 1) _ _ _
        | ModelText t => rfl
        | ToolNotFound req => rfl
        | ArgumentsParseError n2 raw err => rfl
        | ExecutionError n2 err => rfl

/-- Any `ok` outcome of the loop reports at most `maxN` iterations. -/
theorem multi_step_loop_iterations_le (σ : Type) (cb : MultiStepLogEvent → σ → σ)
    (propose : Proposer) (parse : String → Except String Json) (prompt : String)
    (tools : List ToolDefinition) (maxN : Nat) :
    ∀ remaining iteration steps history s ans s2,
      iteration + remaining = maxN + 1 →
      multi_step_loop σ cb propose parse prompt tools maxN remaining iteration steps history s
        = .ok (ans, s2) →
      ans.iterations ≤ maxN := by
  intro remaining
  induction remaining with
  | zero =>
    intro iteration steps history s ans s2 hiter heq
    simp only [multi_step_loop, Except.ok.injEq, Prod.mk.injEq] at heq
    have hit : ans.iterations = maxN := by rw [← heq.1]
    omega
  | succ n ih =>
    intro iteration steps history s ans s2 hiter heq
    simp only [multi_step_loop] at heq
    cases hd : propose iteration history.as_slice "" with
    | error e => rw [hd] at heq; exact absurd heq (by simp)
    | ok dec =>
      rw [hd] at heq
      cases dec with
      | Text t =>
        simp only [Except.ok.injEq, Prod.mk.injEq] at heq
        have hit : ans.iterations = iteration := by rw [← heq.1]
        omega
      | ToolCall name args =>
        dsimp only at heq
        cases hr : resolve_and_execute_tool_call parse (.ToolCall name args) tools with
        | Executed en res =>
          rw [hr] at heq
          exact ih (iteration + 1) _ _ _ ans s2 (by omega) heq
        | ModelText t =>
          rw [hr] at heq
          simp only [Except.ok.injEq, Prod.mk.injEq] at heq
          have hit : ans.iterations = iteration := by rw [← heq.1]
          omega
        | ToolNotFound req =>
          rw [hr] at heq
          simp only [Except.ok.injEq, Prod.mk.injEq] at heq
          have hit : ans.iterations = iteration := by rw [← heq.1]
          omega
        | ArgumentsParseError n2 raw err =>
          rw [hr] at heq
          simp only [Except.ok.injEq, Prod.mk.injEq] at heq
          have hit : ans.iterations = iteration := by rw [← heq.1]
          omega
        | ExecutionError n2 err =>
          rw [hr] at heq
          simp only [Except.ok.injEq, Prod.mk.injEq] at heq
          have hit : ans.iterations = iteration := by rw [← heq.1]
          omega

/-- When every proposal resolves to `Executed`, the loop always reaches the
truncation exit: truncated, with `iterations = maxN`. -/
theorem multi_step_loop_all_executed (σ : Type) (cb : MultiStepLogEvent → σ → σ)
    (propose : Proposer) (parse : String → Except String Json) (prompt : String)
    (tools : List ToolDefinition) (maxN : Nat)
    (hexec : ∀ i hist, ∃ name args ename result,
      propose i hist "" = .ok (.ToolCall name args)
      ∧ resolve_and_execute_tool_call parse (.ToolCall name args) tools
          = .Executed ename result) :
    ∀ remaining iteration steps history s, ∃ ans s2,
      multi_step_loop σ cb propose parse prompt tools maxN remaining iteration steps history s
        = .ok (ans, s2) ∧ ans.truncated = true ∧ ans.iterations = maxN := by
  intro remaining
  induction remaining with
  | zero =>
    intro iteration steps history s
    exact ⟨_, _, rfl, rfl, rfl⟩
  | succ n ih =>
    intro iteration steps history s
    obtain ⟨name, args, ename, result, hp, hr⟩ := hexec iteration history.as_slice
    simp only [multi_step_loop, hp, hr]
    exact ih (iteration + 1) _ _ _

/-- Claim C1: for every tool list, configuration, and proposer behavior the
orchestrator stays within its iteration budget `N = max_loops` (default 5
for `None`): any returned answer reports `iterations ≤ N`; and when every
iteration's proposal resolves to `Executed`, the run returns an answer with
`truncated = true` and `iterations = N` exactly. (The loop is a total
function by construction, so termination itself is definitional.) -/
theorem multi_step_terminates_within_budget (propose : Proposer)
    (parse : String → Except String Json) (prompt : String)
    (tools : List ToolDefinition) (max_loops : Option Nat) :
    (multi_step_tool_answer propose parse prompt tools none
      = multi_step_tool_answer propose parse prompt tools (some 5))
    ∧ (∀ ans, multi_step_tool_answer propose parse prompt tools max_loops = .ok ans →
        ans.iterations ≤ max_loops.getD 5)
    ∧ ((∀ i hist, ∃ name args ename result,
          propose i hist "" = .ok (.ToolCall name args)
          ∧ resolve_and_execute_tool_call parse (.ToolCall name args) tools
              = .Executed ename result) →
        ∃ ans, multi_step_tool_answer propose parse prompt tools max_loops = .ok ans
          ∧ ans.truncated = true ∧ ans.iterations = max_loops.getD 5) := by
  refine ⟨rfl, ?_, ?_⟩
  · intro ans hans
    unfold multi_step_tool_answer multi_step_tool_answer_with_logger_internal at hans
    cases hloop : multi_step_loop Unit (fun _ s => s) propose parse prompt tools
        (max_loops.getD 5) (max_loops.getD 5) 1 []
        (ConversationHistory.new.add_user prompt) () with
    | error e => rw [hloop] at hans; exact absurd hans (by simp [Except.map])
    | ok p =>
      rw [hloop] at hans
      simp only [Except.map, Except.ok.injEq] at hans
      rw [← hans]
      exact multi_step_loop_iterations_le Unit (fun _ s => s) propose parse prompt
        tools (max_loops.getD 5) (max_loops.getD 5) 1 []
        (ConversationHistory.new.add_user prompt) () p.1 p.2 (by omega)
        (by rw [hloop])
  · intro hexec
    obtain ⟨ans, s2, heq, htr, hit⟩ := multi_step_loop_all_executed Unit
      (fun _ s => s) propose parse prompt tools (max_loops.getD 5) hexec
      (max_loops.getD 5) 1 [] (ConversationHistory.new.add_user prompt) ()
    refine ⟨ans, ?_, htr, hit⟩
    unfold multi_step_tool_answer multi_step_tool_answer_with_logger_internal
    rw [heq]
    rfl

/-- A concrete one-iteration text answer, for witnesses. -/
def wAnsText : MultiStepAnswer :=
  { final_answer := "done", steps := [], iterations := 1, truncated := false }

/-- Witness for C1: a proposer that always returns a successful
`get_constants` call truncates at exactly 5 iterations under the default
budget, and a concrete text answer reports `iterations ≤ 5`. -/
theorem multi_step_terminates_within_budget_witness :
    wAnsText.iterations ≤ 5
    ∧ (∃ ans, multi_step_tool_answer wProposeTC wParse "Q" [wTool] none = .ok ans
        ∧ ans.truncated = true ∧ ans.iterations = 5) := by
  refine ⟨?_, ?_⟩
  · exact (multi_step_terminates_within_budget wProposeText wParse "Q" [] none).2.1
      wAnsText rfl
  · exact (multi_step_terminates_within_budget wProposeTC wParse "Q" [wTool] none).2.2
      (fun i hist => ⟨"get_constants", "null", "get_constants",
        .obj [("X", .num 3), ("Y", .num 5)], rfl, rfl⟩)

theorem substring_of_refl (n : String) : substring_of n n :=
  ⟨"", "", by rw [String.empty_append, String.append_empty]⟩

/-- Claim C2: whenever an iteration's resolution is `ToolNotFound`,
`ArgumentsParseError`, or `ExecutionError`, the orchestration loop returns
normally (an `ok` result, not an error) with `truncated = false`,
`iterations` equal to the failing iteration number, `steps` ending with
that resolution, and a `final_answer` containing the original user prompt
plus the failure-specific description (the requested tool name for
not-found; the raw argument text and parse diagnostic for parse errors;
the handler's error text for execution errors). -/
theorem early_failure_graceful_return (σ : Type) (cb : MultiStepLogEvent → σ → σ)
    (propose : Proposer) (parse : String → Except String Json) (prompt : String)
    (tools : List ToolDefinition) (maxN remaining iteration : Nat)
    (steps : List ToolResolution) (history : ConversationHistory) (s : σ)
    (name args : String) (r : ToolResolution)
    (hp : propose iteration history.as_slice "" = .ok (.ToolCall name args))
    (hr : resolve_and_execute_tool_call parse (.ToolCall name args) tools = r)
    (hkind : (match r with
      | .ToolNotFound _ => true
      | .ArgumentsParseError _ _ _ => true
      | .ExecutionError _ _ => true
      | _ => false) = true) :
    ∃ s2,
      multi_step_loop σ cb propose parse prompt tools maxN (remaining + 1)
          iteration steps history s
        = .ok ({ final_answer := early_failure_answer prompt r,
                 steps := steps ++ [r], iterations := iteration,
                 truncated := false }, s2)
      ∧ (steps ++ [r]).getLast? = some r
      ∧ substring_of prompt (early_failure_answer prompt r)
      ∧ (∀ requested, r = .ToolNotFound requested →
          substring_of requested (early_failure_answer prompt r))
      ∧ (∀ n2 raw err, r = .ArgumentsParseError n2 raw err →
          substring_of raw (early_failure_answer prompt r)
          ∧ substring_of err (early_failure_answer prompt r))
      ∧ (∀ n2 err, r = .ExecutionError n2 err →
          substring_of err (early_failure_answer prompt r)) := by
  cases r with
  | ModelText t => simp at hkind
  | Executed en res => simp at hkind
  | ToolNotFound req =>
    refine ⟨cb (.EarlyFailure iteration (.ToolNotFound req))
        (cb (.Resolved iteration (.ToolNotFound req))
          (cb (.Proposed iteration (.ToolCall name args))
            (cb (.IterationStart iteration) s))),
      by simp only [multi_step_loop, hp, hr], by simp, ?_, ?_, ?_, ?_⟩
    · exact substring_of_appendr (substring_of_appendr
        (substring_of_appendl _ (substring_of_refl prompt)) _) _
    · intro requested hreq
      injection hreq with h1
      subst h1
      exact substring_of_appendl _ (substring_of_appendr
        (substring_of_appendl _ (substring_of_refl req)) _)
    · intro n2 raw err hreq; exact (ToolResolution.noConfusion hreq)
    · intro n2 err hreq; exact (ToolResolution.noConfusion hreq)
  | ArgumentsParseError n2 raw err =>
    refine ⟨cb (.EarlyFailure iteration (.ArgumentsParseError n2 raw err))
        (cb (.Resolved iteration (.ArgumentsParseError n2 raw err))
          (cb (.Proposed iteration (.ToolCall name args))
            (cb (.IterationStart iteration) s))),
      by simp only [multi_step_loop, hp, hr], by simp, ?_, ?_, ?_, ?_⟩
    · exact substring_of_appendr (substring_of_appendr
        (substring_of_appendl _ (substring_of_refl prompt)) _) _
    · intro requested hreq; exact (ToolResolution.noConfusion hreq)
    · intro n3 raw2 err2 hreq
      injection hreq with h1 h2 h3
      subst h1; subst h2; subst h3
      constructor
      · exact substring_of_appendl _ (substring_of_appendl _
          (substring_of_refl raw))
      · exact substring_of_appendl _ (substring_of_appendr
          (substring_of_appendr (substring_of_appendl _
            (substring_of_refl err)) _) _)
    · intro n3 err2 hreq; exact (ToolResolution.noConfusion hreq)
  | ExecutionError n2 err =>
    refine ⟨cb (.EarlyFailure iteration (.ExecutionError n2 err))
        (cb (.Resolved iteration (.ExecutionError n2 err))
          (cb (.Proposed iteration (.ToolCall name args))
            (cb (.IterationStart iteration) s))),
      by simp only [multi_step_loop, hp, hr], by simp, ?_, ?_, ?_, ?_⟩
    · exact substring_of_appendr (substring_of_appendr
        (substring_of_appendl _ (substring_of_refl prompt)) _) _
    · intro requested hreq; exact (ToolResolution.noConfusion hreq)
    · intro n3 raw2 err2 hreq; exact (ToolResolution.noConfusion hreq)
    · intro n3 err2 hreq
      injection hreq with h1 h2
      subst h1; subst h2
      exact substring_of_appendl _ (substring_of_appendl _
        (substring_of_refl err))

/-- Witness for C2: a proposer requesting the unregistered tool `nope`
against an empty registry at iteration 1. -/
theorem early_failure_graceful_return_witness :
    (wProposeMissing 1 (ConversationHistory.new.add_user "Q").as_slice ""
        = .ok (.ToolCall "nope" "null"))
    ∧ (resolve_and_execute_tool_call wParse (.ToolCall "nope" "null") []
        = .ToolNotFound "nope")
    ∧ (∃ s2, multi_step_loop Unit (fun _ s => s) wProposeMissing wParse "Q" [] 5
          5 1 [] (ConversationHistory.new.add_user "Q") ()
        = .ok ({ final_answer := early_failure_answer "Q" (.ToolNotFound "nope"),
                 steps := [] ++ [.ToolNotFound "nope"], iterations := 1,
                 truncated := false }, s2)
      ∧ ([] ++ [ToolResolution.ToolNotFound "nope"]).getLast?
          = some (.ToolNotFound "nope")
      ∧ substring_of "Q" (early_failure_answer "Q" (.ToolNotFound "nope"))
      ∧ (∀ requested, ToolResolution.ToolNotFound "nope" = .ToolNotFound requested →
          substring_of requested (early_failure_answer "Q" (.ToolNotFound "nope")))
      ∧ (∀ n2 raw err,
          ToolResolution.ToolNotFound "nope" = .ArgumentsParseError n2 raw err →
          substring_of raw (early_failure_answer "Q" (.ToolNotFound "nope"))
          ∧ substring_of err (early_failure_answer "Q" (.ToolNotFound "nope")))
      ∧ (∀ n2 err, ToolResolution.ToolNotFound "nope" = .ExecutionError n2 err →
          substring_of err (early_failure_answer "Q" (.ToolNotFound "nope")))) :=
  ⟨rfl, rfl, early_failure_graceful_return Unit (fun _ s => s) wProposeMissing wParse
    "Q" [] 5 4 1 [] (ConversationHistory.new.add_user "Q") () "nope" "null"
    (.ToolNotFound "nope") rfl rfl rfl⟩

/-- Claim C6: in an iteration whose resolution is `Executed(name, result)`,
the loop continues with exactly one new transcript turn appended: a
function (tool-result) turn carrying that same name and the serialization
of that same result value, which is then the transcript's last turn. -/
theorem executed_result_appended_verbatim (σ : Type) (cb : MultiStepLogEvent → σ → σ)
    (propose : Proposer) (parse : String → Except String Json) (prompt : String)
    (tools : List ToolDefinition) (maxN remaining iteration : Nat)
    (steps : List ToolResolution) (history : ConversationHistory) (s : σ)
    (name args ename : String) (result : Json)
    (hp : propose iteration history.as_slice "" = .ok (.ToolCall name args))
    (hr : resolve_and_execute_tool_call parse (.ToolCall name args) tools
        = .Executed ename result) :
    (multi_step_loop σ cb propose parse prompt tools maxN (remaining + 1)
        iteration steps history s
      = multi_step_loop σ cb propose parse prompt tools maxN remaining
          (iteration + 1) (steps ++ [.Executed ename result])
          (history.add_function ename result.render)
          (cb (.HistoryFunctionAppended iteration ename result)
            (cb (.Resolved iteration (.Executed ename result))
              (cb (.Proposed iteration (.ToolCall name args))
                (cb (.IterationStart iteration) s)))))
    ∧ (history.add_function ename result.render).as_slice
        = history.as_slice ++ [.Function ename result.render]
    ∧ (history.add_function ename result.render).as_slice.getLast?
        = some (.Function ename result.render) := by
  refine ⟨by simp only [multi_step_loop, hp, hr], rfl, ?_⟩
  simp [ConversationHistory.add_function, ConversationHistory.push,
    ConversationHistory.as_slice]

/-- Witness for C6: the `get_constants` tool executed at iteration 1
appends its serialized `X`/`Y` result as the last transcript turn. -/
theorem executed_result_appended_verbatim_witness :
    (wProposeTC 1 (ConversationHistory.new.add_user "Q").as_slice ""
        = .ok (.ToolCall "get_constants" "null"))
    ∧ (resolve_and_execute_tool_call wParse (.ToolCall "get_constants" "null") [wTool]
        = .Executed "get_constants" (.obj [("X", .num 3), ("Y", .num 5)]))
    ∧ ((multi_step_loop Unit (fun _ s => s) wProposeTC wParse "Q" [wTool] 5 5 1 []
          (ConversationHistory.new.add_user "Q") ()
        = multi_step_loop Unit (fun _ s => s) wProposeTC wParse "Q" [wTool] 5 4 2
            [.Executed "get_constants" (.obj [("X", .num 3), ("Y", .num 5)])]
            ((ConversationHistory.new.add_user "Q").add_function "get_constants"
              (Json.obj [("X", .num 3), ("Y", .num 5)]).render) ())
      ∧ ((ConversationHistory.new.add_user "Q").add_function "get_constants"
            (Json.obj [("X", .num 3), ("Y", .num 5)]).render).as_slice
          = (ConversationHistory.new.add_user "Q").as_slice
            ++ [.Function "get_constants" (Json.obj [("X", .num 3), ("Y", .num 5)]).render]
      ∧ ((ConversationHistory.new.add_user "Q").add_function "get_constants"
            (Json.obj [("X", .num 3), ("Y", .num 5)]).render).as_slice.getLast?
          = some (.Function "get_constants"
              (Json.obj [("X", .num 3), ("Y", .num 5)]).render)) :=
  ⟨rfl, rfl, executed_result_appended_verbatim Unit (fun _ s => s) wProposeTC wParse
    "Q" [wTool] 5 4 1 [] (ConversationHistory.new.add_user "Q") () "get_constants"
    "null" "get_constants" (.obj [("X", .num 3), ("Y", .num 5)]) rfl rfl⟩

/-- Claim C10: the proposer used by the orchestrator assembles every model
request as a fixed hardcoded system message, then a user message holding
the per-call prompt argument, then all transcript turns; the transcript's
own system directive is never consulted (the slice passed in excludes it);
and the orchestrator only ever invokes the proposer with the empty prompt,
so each request carries an empty user message between the system message
and the transcript turns (proposers agreeing on the empty prompt give
identical runs). -/
theorem proposer_message_layout :
    (∀ history prompt, propose_tool_call_messages history prompt
        = .System "あなたは簡潔な日本語で答えるアシスタントです。" :: .User prompt :: history)
    ∧ (∀ (h : ConversationHistory) (c prompt : String),
        propose_tool_call_messages ((h.set_system c).as_slice) prompt
          = propose_tool_call_messages h.as_slice prompt)
    ∧ (∀ history, propose_tool_call_messages history ""
        = .System "あなたは簡潔な日本語で答えるアシスタントです。" :: .User "" :: history)
    ∧ (∀ (σ : Type) (cb : MultiStepLogEvent → σ → σ) (p1 p2 : Proposer)
        (parse : String → Except String Json) (prompt : String)
        (tools : List ToolDefinition) (max_loops : Option Nat) (s : σ),
        (∀ i hist, p1 i hist "" = p2 i hist "") →
        multi_step_tool_answer_with_logger_internal σ cb p1 parse prompt tools max_loops s
          = multi_step_tool_answer_with_logger_internal σ cb p2 parse prompt tools max_loops s) := by
  refine ⟨fun _ _ => rfl, fun _ _ _ => rfl, fun _ => rfl, ?_⟩
  intro σ cb p1 p2 parse prompt tools max_loops s hp
  exact multi_step_loop_prompt_empty σ cb p1 p2 parse prompt tools (max_loops.getD 5)
    hp (max_loops.getD 5) 1 [] (ConversationHistory.new.add_user prompt) s

/-- Witness for C10: two proposers that differ off the empty prompt but
agree on it produce the same run. -/
theorem proposer_message_layout_witness :
    multi_step_tool_answer_with_logger_internal Unit (fun _ s => s) wP1 wParse
        "Q" [] (some 2) ()
      = multi_step_tool_answer_with_logger_internal Unit (fun _ s => s) wP2 wParse
        "Q" [] (some 2) () :=
  proposer_message_layout.2.2.2 Unit (fun _ s => s) wP1 wP2 wParse "Q" [] (some 2) ()
    (fun _ _ => rfl)

/-- The iteration an event belongs to (`Truncated` reports the budget, which
the loop reaches after its last iteration). -/
def event_iteration : MultiStepLogEvent → Nat
  | .IterationStart i => i
  | .Proposed i _ => i
  | .Resolved i _ => i
  | .HistoryFunctionAppended i _ _ => i
  | .FinalText i _ => i
  | .EarlyFailure i _ => i
  | .Truncated m => m

/-- Number of iterations whose proposal was a tool call, read off the event
sequence. -/
def proposed_tool_call_count (evs : List MultiStepLogEvent) : Nat :=
  (evs.filter (fun e => match e with
    | .Proposed _ (.ToolCall _ _) => true
    | _ => false)).length

/-- Number of `IterationStart` events, i.e. of iterations begun. -/
def iteration_start_count (evs : List MultiStepLogEvent) : Nat :=
  (evs.filter (fun e => match e with
    | .IterationStart _ => true
    | _ => false)).length

/-- Whether the run's last emitted event is `FinalText`, i.e. whether the
final iteration's decision was `Text`. -/
def ends_with_final_text (evs : List MultiStepLogEvent) : Bool :=
  match evs.getLast? with
  | some (.FinalText _ _) => true
  | _ => false

/-- Events accumulated by the collecting sink only grow at the end: a run
started with accumulator `evs` is the run started empty, with `evs`
prepended. -/
theorem multi_step_loop_collect_shift (propose : Proposer)
    (parse : String → Except String Json) (prompt : String)
    (tools : List ToolDefinition) (maxN : Nat) :
    ∀ remaining iteration steps history evs,
      multi_step_loop (List MultiStepLogEvent) collect_events propose parse prompt
          tools maxN remaining iteration steps history evs
        = (multi_step_loop (List MultiStepLogEvent) collect_events propose parse
            prompt tools maxN remaining iteration steps history []).map
            (fun p => (p.1, evs ++ p.2)) := by
  intro remaining
  induction remaining with
  | zero =>
    intro iteration steps history evs
    simp [multi_step_loop, collect_events, Except.map]
  | succ n ih =>
    intro iteration steps history evs
    simp only [multi_step_loop, collect_events]
    cases hd : propose iteration history.as_slice "" with
    | error e => simp [Except.map]
    | ok dec =>
      cases dec with
      | Text t => simp [Except.map]
      | ToolCall name args =>
        dsimp only
        cases hr : resolve_and_execute_tool_call parse (.ToolCall name args) tools with
        | Executed en res =>
          dsimp only
          rw [ih]
          conv_rhs => rw [ih]
          cases hloop : multi_step_loop (List MultiStepLogEvent) collect_events
              propose parse prompt tools maxN n (iteration + 1)
              (steps ++ [.Executed en res]) (history.add_function en res.render) [] with
          | error e => simp [Except.map]
          | ok p => simp [Except.map]
        | ModelText t => simp [Except.map]
        | ToolNotFound req => simp [Except.map]
        | ArgumentsParseError n2 raw err => simp [Except.map]
        | ExecutionError n2 err => simp [Except.map]

/-- Running the loop with any sink is the same as collecting the canonical
event sequence and folding the sink over it, in order. -/
theorem multi_step_loop_canonical (σ : Type) (cb : MultiStepLogEvent → σ → σ)
    (propose : Proposer) (parse : String → Except String Json) (prompt : String)
    (tools : List ToolDefinition) (maxN : Nat) :
    ∀ remaining iteration steps history s,
      multi_step_loop σ cb propose parse prompt tools maxN remaining iteration
          steps history s
        = match multi_step_loop (List MultiStepLogEvent) collect_events propose
              parse prompt tools maxN remaining iteration steps history [] with
          | .error e => .error e
          | .ok p => .ok (p.1, p.2.foldl (fun st e => cb e st) s) := by
  intro remaining
  induction remaining with
  | zero =>
    intro iteration steps history s
    simp [multi_step_loop, collect_events]
  | succ n ih =>
    intro iteration steps history s
    simp only [multi_step_loop, collect_events]
    cases hd : propose iteration history.as_slice "" with
    | error e => rfl
    | ok dec =>
      cases dec with
      | Text t => simp
      | ToolCall name args =>
        dsimp only
        cases hr : resolve_and_execute_tool_call parse (.ToolCall name args) tools with
        | Executed en res =>
          dsimp only
          rw [ih]
          conv_rhs => rw [multi_step_loop_collect_shift propose parse prompt tools
            maxN n (iteration + 1) (steps ++ [ToolResolution.Executed en res])
            (history.add_function en res.render)
            ([] ++ [MultiStepLogEvent.IterationStart iteration]
              ++ [MultiStepLogEvent.Proposed iteration (ToolCallDecision.ToolCall name args)]
              ++ [MultiStepLogEvent.Resolved iteration (ToolResolution.Executed en res)]
              ++ [MultiStepLogEvent.HistoryFunctionAppended iteration en res])]
          cases hloop : multi_step_loop (List MultiStepLogEvent) collect_events
              propose parse prompt tools maxN n (iteration + 1)
              (steps ++ [.Executed en res]) (history.add_function en res.render) [] with
          | error e => simp [hloop, Except.map]
          | ok p => simp [hloop, Except.map]
        | ModelText t => simp
        | ToolNotFound req => simp
        | ArgumentsParseError n2 raw err => simp
        | ExecutionError n2 err => simp

theorem proposed_tool_call_count_append (l1 l2 : List MultiStepLogEvent) :
    proposed_tool_call_count (l1 ++ l2)
      = proposed_tool_call_count l1 + proposed_tool_call_count l2 := by
  simp [proposed_tool_call_count, List.filter_append]

theorem iteration_start_count_append (l1 l2 : List MultiStepLogEvent) :
    iteration_start_count (l1 ++ l2)
      = iteration_start_count l1 + iteration_start_count l2 := by
  simp [iteration_start_count, List.filter_append]

theorem ends_with_final_text_append (l1 l2 : List MultiStepLogEvent)
    (h : l2 ≠ []) :
    ends_with_final_text (l1 ++ l2) = ends_with_final_text l2 := by
  unfold ends_with_final_text
  rw [List.getLast?_append_of_ne_nil l1 h]

/-- Along a collected run, events are emitted in nondecreasing iteration
order, and no event predates the starting iteration. -/
theorem multi_step_loop_events_mono (propose : Proposer)
    (parse : String → Except String Json) (prompt : String)
    (tools : List ToolDefinition) (maxN : Nat) :
    ∀ remaining iteration steps history ans evs,
      iteration + remaining ≤ maxN + 1 →
      multi_step_loop (List MultiStepLogEvent) collect_events propose parse prompt
          tools maxN remaining iteration steps history [] = .ok (ans, evs) →
      List.Chain' (fun a b => a ≤ b) (evs.map event_iteration)
      ∧ ∀ e ∈ evs, iteration ≤ event_iteration e + 1 := by
  intro remaining
  induction remaining with
  | zero =>
    intro iteration steps history ans evs hle heq
    simp only [multi_step_loop, collect_events, List.nil_append,
      Except.ok.injEq, Prod.mk.injEq] at heq
    obtain ⟨-, h2⟩ := heq
    subst h2
    refine ⟨by simp, ?_⟩
    intro e he
    simp at he
    subst he
    simp only [event_iteration]
    omega
  | succ n ih =>
    intro iteration steps history ans evs hle heq
    simp only [multi_step_loop, collect_events] at heq
    cases hd : propose iteration history.as_slice "" with
    | error e => rw [hd] at heq; exact absurd heq (by simp)
    | ok dec =>
      rw [hd] at heq
      cases dec with
      | Text t =>
        simp only [List.nil_append, Except.ok.injEq, Prod.mk.injEq] at heq
        obtain ⟨-, h2⟩ := heq
        subst h2
        refine ⟨by simp [event_iteration], ?_⟩
        intro e he
        simp at he
        rcases he with rfl | rfl | rfl <;> (simp only [event_iteration]; omega)
      | ToolCall name args =>
        dsimp only at heq
        cases hr : resolve_and_execute_tool_call parse (.ToolCall name args) tools with
        | Executed en res =>
          rw [hr] at heq
          dsimp only at heq
          rw [multi_step_loop_collect_shift propose parse prompt tools maxN n
            (iteration + 1) (steps ++ [ToolResolution.Executed en res])
            (history.add_function en res.render)] at heq
          cases hloop : multi_step_loop (List MultiStepLogEvent) collect_events
              propose parse prompt tools maxN n (iteration + 1)
              (steps ++ [.Executed en res]) (history.add_function en res.render) [] with
          | error e => rw [hloop] at heq; exact absurd heq (by simp [Except.map])
          | ok p =>
            rw [hloop] at heq
            simp only [Except.map, List.nil_append, Except.ok.injEq,
              Prod.mk.injEq] at heq
            obtain ⟨-, h2⟩ := heq
            subst h2
            obtain ⟨ihchain, ihbound⟩ := ih (iteration + 1)
              (steps ++ [.Executed en res]) (history.add_function en res.render)
              p.1 p.2 (by omega) hloop
            constructor
            · rw [List.map_append, List.chain'_append]
              refine ⟨by simp [event_iteration], ihchain, ?_⟩
              intro x hx y hy
              simp [event_iteration] at hx
              subst hx
              cases hp2 : p.2 with
              | nil => rw [hp2] at hy; simp at hy
              | cons e2 t2 =>
                rw [hp2] at hy
                simp at hy
                subst hy
                have hb := ihbound e2 (by rw [hp2]; exact List.mem_cons_self e2 t2)
                omega
            · intro e he
              rcases List.mem_append.mp he with h4 | hrest
              · simp at h4
                rcases h4 with rfl | rfl | rfl | rfl <;>
                  (simp only [event_iteration]; omega)
              · have hb := ihbound e hrest
                omega
        | ModelText t =>
          rw [hr] at heq
          simp only [List.nil_append, Except.ok.injEq, Prod.mk.injEq] at heq
          obtain ⟨-, h2⟩ := heq
          subst h2
          refine ⟨by simp [event_iteration], ?_⟩
          intro e he
          simp at he
          rcases he with rfl | rfl | rfl | rfl <;> (simp only [event_iteration]; omega)
        | ToolNotFound req =>
          rw [hr] at heq
          simp only [List.nil_append, Except.ok.injEq, Prod.mk.injEq] at heq
          obtain ⟨-, h2⟩ := heq
          subst h2
          refine ⟨by simp [event_iteration], ?_⟩
          intro e he
          simp at he
          rcases he with rfl | rfl | rfl | rfl <;> (simp only [event_iteration]; omega)
        | ArgumentsParseError n2 raw err =>
          rw [hr] at heq
          simp only [List.nil_append, Except.ok.injEq, Prod.mk.injEq] at heq
          obtain ⟨-, h2⟩ := heq
          subst h2
          refine ⟨by simp [event_iteration], ?_⟩
          intro e he
          simp at he
          rcases he with rfl | rfl | rfl | rfl <;> (simp only [event_iteration]; omega)
        | ExecutionError n2 err =>
          rw [hr] at heq
          simp only [List.nil_append, Except.ok.injEq, Prod.mk.injEq] at heq
          obtain ⟨-, h2⟩ := heq
          subst h2
          refine ⟨by simp [event_iteration], ?_⟩
          intro e he
          simp at he
          rcases he with rfl | rfl | rfl | rfl <;> (simp only [event_iteration]; omega)

/-- The run-shape invariant behind C1 and C5: starting iteration `i` with
`i = steps.length + 1` and `i + remaining = maxN + 1`, an `ok` outcome's
`steps` count the tool-call proposals, the `IterationStart` events count the
iterations, and `steps` falls short of `iterations` by one exactly when the
run ended on a `FinalText` event. -/
theorem multi_step_loop_steps_spec (propose : Proposer)
    (parse : String → Except String Json) (prompt : String)
    (tools : List ToolDefinition) (maxN : Nat) :
    ∀ remaining iteration steps history ans evs,
      iteration = steps.length + 1 →
      iteration + remaining = maxN + 1 →
      multi_step_loop (List MultiStepLogEvent) collect_events propose parse prompt
          tools maxN remaining iteration steps history [] = .ok (ans, evs) →
      evs ≠ []
      ∧ ans.steps.length = steps.length + proposed_tool_call_count evs
      ∧ iteration_start_count evs + iteration = ans.iterations + 1
      ∧ (ends_with_final_text evs = true → ans.steps.length + 1 = ans.iterations)
      ∧ (ends_with_final_text evs = false → ans.steps.length = ans.iterations) := by
  intro remaining
  induction remaining with
  | zero =>
    intro iteration steps history ans evs hsteps hbudget heq
    simp only [multi_step_loop, collect_events, List.nil_append, List.cons_append,
      Except.ok.injEq, Prod.mk.injEq] at heq
    obtain ⟨h1, h2⟩ := heq
    subst h2
    have hs : ans.steps = steps := by rw [← h1]
    have hit : ans.iterations = maxN := by rw [← h1]
    refine ⟨by simp, ?_, ?_, ?_, ?_⟩
    · rw [hs]
      have hc : proposed_tool_call_count [MultiStepLogEvent.Truncated maxN] = 0 := rfl
      omega
    · rw [hit]
      have hc : iteration_start_count [MultiStepLogEvent.Truncated maxN] = 0 := rfl
      omega
    · intro hend
      have hc : ends_with_final_text [MultiStepLogEvent.Truncated maxN] = false := rfl
      rw [hc] at hend
      exact absurd hend (by simp)
    · intro hend
      rw [hs, hit]
      omega
  | succ n ih =>
    intro iteration steps history ans evs hsteps hbudget heq
    simp only [multi_step_loop, collect_events] at heq
    cases hd : propose iteration history.as_slice "" with
    | error e => rw [hd] at heq; exact absurd heq (by simp)
    | ok dec =>
      rw [hd] at heq
      cases dec with
      | Text t =>
        simp only [List.nil_append, List.cons_append, Except.ok.injEq,
          Prod.mk.injEq] at heq
        obtain ⟨h1, h2⟩ := heq
        subst h2
        have hs : ans.steps = steps := by rw [← h1]
        have hit : ans.iterations = iteration := by rw [← h1]
        refine ⟨by simp, ?_, ?_, ?_, ?_⟩
        · rw [hs]
          have hc : proposed_tool_call_count [MultiStepLogEvent.IterationStart iteration,
            .Proposed iteration (.Text t), .FinalText iteration t] = 0 := rfl
          omega
        · rw [hit]
          have hc : iteration_start_count [MultiStepLogEvent.IterationStart iteration,
            .Proposed iteration (.Text t), .FinalText iteration t] = 1 := rfl
          omega
        · intro hend
          rw [hs, hit]
          omega
        · intro hend
          have hc : ends_with_final_text [MultiStepLogEvent.IterationStart iteration,
            .Proposed iteration (.Text t), .FinalText iteration t] = true := rfl
          rw [hc] at hend
          exact absurd hend (by simp)
      | ToolCall name args =>
        dsimp only at heq
        cases hr : resolve_and_execute_tool_call parse (.ToolCall name args) tools with
        | Executed en res =>
          rw [hr] at heq
          dsimp only at heq
          rw [multi_step_loop_collect_shift propose parse prompt tools maxN n
            (iteration + 1) (steps ++ [ToolResolution.Executed en res])
            (history.add_function en res.render)] at heq
          cases hloop : multi_step_loop (List MultiStepLogEvent) collect_events
              propose parse prompt tools maxN n (iteration + 1)
              (steps ++ [.Executed en res]) (history.add_function en res.render) [] with
          | error e => rw [hloop] at heq; exact absurd heq (by simp [Except.map])
          | ok p =>
            rw [hloop] at heq
            simp only [Except.map, List.nil_append, List.cons_append,
              Except.ok.injEq, Prod.mk.injEq] at heq
            obtain ⟨h1, h2⟩ := heq
            have hevs : evs = [MultiStepLogEvent.IterationStart iteration,
              .Proposed iteration (.ToolCall name args),
              .Resolved iteration (.Executed en res),
              .HistoryFunctionAppended iteration en res] ++ p.2 := by
              rw [← h2]; simp
            subst hevs
            obtain ⟨ihne, ihsteps, ihisc, ihtrue, ihfalse⟩ := ih (iteration + 1)
              (steps ++ [.Executed en res]) (history.add_function en res.render)
              p.1 p.2 (by simp [hsteps]) (by omega) hloop
            have hlen : (steps ++ [ToolResolution.Executed en res]).length
                = steps.length + 1 := by simp
            refine ⟨by simp, ?_, ?_, ?_, ?_⟩
            · rw [← h1, proposed_tool_call_count_append]
              have hc : proposed_tool_call_count [MultiStepLogEvent.IterationStart iteration,
                .Proposed iteration (.ToolCall name args),
                .Resolved iteration (.Executed en res),
                .HistoryFunctionAppended iteration en res] = 1 := rfl
              rw [hc]
              omega
            · rw [← h1, iteration_start_count_append]
              have hc : iteration_start_count [MultiStepLogEvent.IterationStart iteration,
                .Proposed iteration (.ToolCall name args),
                .Resolved iteration (.Executed en res),
                .HistoryFunctionAppended iteration en res] = 1 := rfl
              rw [hc]
              omega
            · intro hend
              rw [ends_with_final_text_append _ _ ihne] at hend
              rw [← h1]
              exact ihtrue hend
            · intro hend
              rw [ends_with_final_text_append _ _ ihne] at hend
              rw [← h1]
              exact ihfalse hend
        | ModelText t =>
          rw [hr] at heq
          simp only [List.nil_append, List.cons_append, Except.ok.injEq,
            Prod.mk.injEq] at heq
          obtain ⟨h1, h2⟩ := heq
          subst h2
          have hs : ans.steps = steps ++ [ToolResolution.ModelText t] := by rw [← h1]
          have hit : ans.iterations = iteration := by rw [← h1]
          have hlen : (steps ++ [ToolResolution.ModelText t]).length
              = steps.length + 1 := by simp
          refine ⟨by simp, ?_, ?_, ?_, ?_⟩
          · rw [hs]
            have hc : proposed_tool_call_count [MultiStepLogEvent.IterationStart iteration,
              .Proposed iteration (.ToolCall name args),
              .Resolved iteration (.ModelText t),
              .EarlyFailure iteration (.ModelText t)] = 1 := rfl
            omega
          · rw [hit]
            have hc : iteration_start_count [MultiStepLogEvent.IterationStart iteration,
              .Proposed iteration (.ToolCall name args),
              .Resolved iteration (.ModelText t),
              .EarlyFailure iteration (.ModelText t)] = 1 := rfl
            omega
          · intro hend
            have hc : ends_with_final_text [MultiStepLogEvent.IterationStart iteration,
              .Proposed iteration (.ToolCall name args),
              .Resolved iteration (.ModelText t),
              .EarlyFailure iteration (.ModelText t)] = false := rfl
            rw [hc] at hend
            exact absurd hend (by simp)
          · intro hend
            rw [hs, hit]
            have hl2 : (steps ++ [ToolResolution.ModelText t]).length
                = steps.length + 1 := by simp
            omega
        | ToolNotFound req =>
          rw [hr] at heq
          simp only [List.nil_append, List.cons_append, Except.ok.injEq,
            Prod.mk.injEq] at heq
          obtain ⟨h1, h2⟩ := heq
          subst h2
          have hs : ans.steps = steps ++ [ToolResolution.ToolNotFound req] := by rw [← h1]
          have hit : ans.iterations = iteration := by rw [← h1]
          have hlen : (steps ++ [ToolResolution.ToolNotFound req]).length
              = steps.length + 1 := by simp
          refine ⟨by simp, ?_, ?_, ?_, ?_⟩
          · rw [hs]
            have hc : proposed_tool_call_count [MultiStepLogEvent.IterationStart iteration,
              .Proposed iteration (.ToolCall name args),
              .Resolved iteration (.ToolNotFound req),
              .EarlyFailure iteration (.ToolNotFound req)] = 1 := rfl
            omega
          · rw [hit]
            have hc : iteration_start_count [MultiStepLogEvent.IterationStart iteration,
              .Proposed iteration (.ToolCall name args),
              .Resolved iteration (.ToolNotFound req),
              .EarlyFailure iteration (.ToolNotFound req)] = 1 := rfl
            omega
          · intro hend
            have hc : ends_with_final_text [MultiStepLogEvent.IterationStart iteration,
              .Proposed iteration (.ToolCall name args),
              .Resolved iteration (.ToolNotFound req),
              .EarlyFailure iteration (.ToolNotFound req)] = false := rfl
            rw [hc] at hend
            exact absurd hend (by simp)
          · intro hend
            rw [hs, hit]
            omega
        | ArgumentsParseError n2 raw err =>
          rw [hr] at heq
          simp only [List.nil_append, List.cons_append, Except.ok.injEq,
            Prod.mk.injEq] at heq
          obtain ⟨h1, h2⟩ := heq
          subst h2
          have hs : ans.steps = steps ++ [ToolResolution.ArgumentsParseError n2 raw err] := by
            rw [← h1]
          have hit : ans.iterations = iteration := by rw [← h1]
          have hlen : (steps ++ [ToolResolution.ArgumentsParseError n2 raw err]).length
              = steps.length + 1 := by simp
          refine ⟨by simp, ?_, ?_, ?_, ?_⟩
          · rw [hs]
            have hc : proposed_tool_call_count [MultiStepLogEvent.IterationStart iteration,
              .Proposed iteration (.ToolCall name args),
              .Resolved iteration (.ArgumentsParseError n2 raw err),
              .EarlyFailure iteration (.ArgumentsParseError n2 raw err)] = 1 := rfl
            omega
          · rw [hit]
            have hc : iteration_start_count [MultiStepLogEvent.IterationStart iteration,
              .Proposed iteration (.ToolCall name args),
              .Resolved iteration (.ArgumentsParseError n2 raw err),
              .EarlyFailure iteration (.ArgumentsParseError n2 raw err)] = 1 := rfl
            omega
          · intro hend
            have hc : ends_with_final_text [MultiStepLogEvent.IterationStart iteration,
              .Proposed iteration (.ToolCall name args),
              .Resolved iteration (.ArgumentsParseError n2 raw err),
              .EarlyFailure iteration (.ArgumentsParseError n2 raw err)] = false := rfl
            rw [hc] at hend
            exact absurd hend (by simp)
          · intro hend
            rw [hs, hit]
            omega
        | ExecutionError n2 err =>
          rw [hr] at heq
          simp only [List.nil_append, List.cons_append, Except.ok.injEq,
            Prod.mk.injEq] at heq
          obtain ⟨h1, h2⟩ := heq
          subst h2
          have hs : ans.steps = steps ++ [ToolResolution.ExecutionError n2 err] := by
            rw [← h1]
          have hit : ans.iterations = iteration := by rw [← h1]
          have hlen : (steps ++ [ToolResolution.ExecutionError n2 err]).length
              = steps.length + 1 := by simp
          refine ⟨by simp, ?_, ?_, ?_, ?_⟩
          · rw [hs]
            have hc : proposed_tool_call_count [MultiStepLogEvent.IterationStart iteration,
              .Proposed iteration (.ToolCall name args),
              .Resolved iteration (.ExecutionError n2 err),
              .EarlyFailure iteration (.ExecutionError n2 err)] = 1 := rfl
            omega
          · rw [hit]
            have hc : iteration_start_count [MultiStepLogEvent.IterationStart iteration,
              .Proposed iteration (.ToolCall name args),
              .Resolved iteration (.ExecutionError n2 err),
              .EarlyFailure iteration (.ExecutionError n2 err)] = 1 := rfl
            omega
          · intro hend
            have hc : ends_with_final_text [MultiStepLogEvent.IterationStart iteration,
              .Proposed iteration (.ToolCall name args),
              .Resolved iteration (.ExecutionError n2 err),
              .EarlyFailure iteration (.ExecutionError n2 err)] = false := rfl
            rw [hc] at hend
            exact absurd hend (by simp)
          · intro hend
            rw [hs, hit]
            omega

/-- Claim C5: in every returned answer, the length of `steps` equals the
number of iterations in which the proposer returned a `ToolCall` decision
(a resolution of any kind is appended for each such iteration; the count is
read off the run's `Proposed` events), and `steps` is strictly shorter than
`iterations` exactly when the final iteration's decision was `Text` (the
run's last event is `FinalText`). -/
theorem steps_length_matches_tool_call_iterations (propose : Proposer)
    (parse : String → Except String Json) (prompt : String)
    (tools : List ToolDefinition) (max_loops : Option Nat)
    (ans : MultiStepAnswer) (evs : List MultiStepLogEvent)
    (h : multi_step_events propose parse prompt tools max_loops = .ok (ans, evs)) :
    ans.steps.length = proposed_tool_call_count evs
    ∧ (ans.steps.length < ans.iterations ↔ ends_with_final_text evs = true) := by
  obtain ⟨hne, hsteps, hisc, htrue, hfalse⟩ :=
    multi_step_loop_steps_spec propose parse prompt tools (max_loops.getD 5)
      (max_loops.getD 5) 1 [] (ConversationHistory.new.add_user prompt) ans evs
      rfl (by omega) h
  refine ⟨by simpa using hsteps, ?_, ?_⟩
  · intro hlt
    cases hend : ends_with_final_text evs with
    | false => have := hfalse hend; omega
    | true => rfl
  · intro hend
    have := htrue hend
    omega

/-- The event trace of a one-iteration text-answer run, for witnesses. -/
def wEvsText : List MultiStepLogEvent :=
  [.IterationStart 1, .Proposed 1 (.Text "done"), .FinalText 1 "done"]

/-- Witness for C5: a run whose single iteration answers with text has no
steps, no tool-call proposals, and ends on `FinalText`. -/
theorem steps_length_matches_tool_call_iterations_witness :
    (multi_step_events wProposeText wParse "Q" [] none = .ok (wAnsText, wEvsText))
    ∧ (wAnsText.steps.length = proposed_tool_call_count wEvsText
       ∧ (wAnsText.steps.length < wAnsText.iterations
            ↔ ends_with_final_text wEvsText = true)) :=
  ⟨rfl, steps_length_matches_tool_call_iterations wProposeText wParse "Q" [] none
    wAnsText wEvsText rfl⟩

/-- Claim C7: the observer sink never affects the orchestration outcome —
with any sink and initial sink state (the absent sink being the trivial
one), the projected answer equals the sink-free run's answer; running with
a sink equals folding the sink, in order, over the one canonical event
sequence determined by the prompt, tools, configuration and
proposer/resolver behavior alone; and that sequence is delivered in
nondecreasing iteration order. -/
theorem logger_sink_noninterference (propose : Proposer)
    (parse : String → Except String Json) (prompt : String)
    (tools : List ToolDefinition) (max_loops : Option Nat) :
    (∀ (σ : Type) (cb : MultiStepLogEvent → σ → σ) (s : σ),
      (multi_step_tool_answer_with_logger_internal σ cb propose parse prompt tools
          max_loops s).map Prod.fst
        = multi_step_tool_answer propose parse prompt tools max_loops)
    ∧ (∀ (σ : Type) (cb : MultiStepLogEvent → σ → σ) (s : σ),
      multi_step_tool_answer_with_logger_internal σ cb propose parse prompt tools
          max_loops s
        = match multi_step_events propose parse prompt tools max_loops with
          | .error e => .error e
          | .ok p => .ok (p.1, p.2.foldl (fun st e => cb e st) s))
    ∧ (match multi_step_events propose parse prompt tools max_loops with
       | .error _ => True
       | .ok p => List.Chain' (fun a b => a ≤ b) (p.2.map event_iteration)) := by
  have hcanon : ∀ (σ : Type) (cb : MultiStepLogEvent → σ → σ) (s : σ),
      multi_step_tool_answer_with_logger_internal σ cb propose parse prompt tools
          max_loops s
        = match multi_step_events propose parse prompt tools max_loops with
          | .error e => .error e
          | .ok p => .ok (p.1, p.2.foldl (fun st e => cb e st) s) := by
    intro σ cb s
    exact multi_step_loop_canonical σ cb propose parse prompt tools
      (max_loops.getD 5) (max_loops.getD 5) 1 []
      (ConversationHistory.new.add_user prompt) s
  refine ⟨?_, hcanon, ?_⟩
  · intro σ cb s
    rw [hcanon σ cb s]
    unfold multi_step_tool_answer
    rw [hcanon Unit (fun _ s => s) ()]
    cases multi_step_events propose parse prompt tools max_loops with
    | error e => rfl
    | ok p => rfl
  · cases hev : multi_step_events propose parse prompt tools max_loops with
    | error e => trivial
    | ok p =>
      exact (multi_step_loop_events_mono propose parse prompt tools
        (max_loops.getD 5) (max_loops.getD 5) 1 []
        (ConversationHistory.new.add_user prompt) p.1 p.2 (by omega) hev).1

end RustTest
